import Mathlib

/-!
# Verification of the parallel character-count core

Shallow embedding of the repository's parallel byte-count program
(`src/First_Exercise/Third/third.c`) and its single-pass variant
(`src/First/count_char.c`), with theorems settling the specification's
claims about the segment planner, the counting algorithm, the result
collection loop, the SIGINT debounce, the active-children counter, the
worker-count parsing and the empty-input check.

Buffers are modelled as `List Nat` (one entry per byte), file offsets and
sizes as `Nat`, and C's signed `long long` / `time_t` values as `Int`.
-/

namespace ThirdC

/-! ## Counting

`count_char.c` lines 96-102: a single pass over the whole buffer,
incrementing a counter on each position holding the target byte.  The
per-child loop of `third.c` lines 191-198 is the same loop restricted to
the child's segment. -/

/-- Single-pass scan (`count_char.c:96-102`): number of positions of `buf`
holding the byte `c`. -/
def countChar (buf : List Nat) (c : Nat) : Nat :=
  match buf with
  | [] => 0
  | b :: rest => (if b = c then 1 else 0) + countChar rest c

/-- Per-child segment scan (`third.c:191-198`): the child counts matches of
`c` over positions `start ≤ j < start + len` of `buf`. -/
def countSeg (buf : List Nat) (c start len : Nat) : Nat :=
  countChar ((buf.drop start).take len) c

/-! ## Segment planning

`third.c` lines 154-156 compute `base_size = file_size / P` and
`remainder = file_size % P`; lines 188-190 give child `i` the segment
starting at `i * base_size + min i remainder` of length
`base_size + (if i < remainder then 1 else 0)`. -/

/-- Start offset of segment `i` (`third.c:188`). -/
def segStart (total P i : Nat) : Nat :=
  i * (total / P) + min i (total % P)

/-- Length of segment `i` (`third.c:189`). -/
def segLen (total P i : Nat) : Nat :=
  total / P + (if i < total % P then 1 else 0)

/-- Sum of the per-segment counts over the `P` children, collected by the
parent (`third.c:217-258`, with every channel delivering its full count). -/
def segCountSum (buf : List Nat) (c P : Nat) : Nat :=
  ((List.range P).map fun i =>
    countSeg buf c (segStart buf.length P i) (segLen buf.length P i)).sum

lemma countChar_append (l₁ l₂ : List Nat) (c : Nat) :
    countChar (l₁ ++ l₂) c = countChar l₁ c + countChar l₂ c := by
  induction l₁ with
  | nil => simp [countChar]
  | cons b rest ih => simp [countChar, ih]; ring

lemma countChar_le_length (l : List Nat) (c : Nat) :
    countChar l c ≤ l.length := by
  induction l with
  | nil => simp [countChar]
  | cons b rest ih =>
      by_cases h : b = c <;> simp [countChar, h] <;> omega

lemma segStart_zero (total P : Nat) : segStart total P 0 = 0 := by
  simp [segStart]

lemma segStart_succ (total P i : Nat) :
    segStart total P (i + 1) = segStart total P i + segLen total P i := by
  unfold segStart segLen
  rcases Nat.lt_or_ge i (total % P) with h | h
  · have h1 : min i (total % P) = i := Nat.min_eq_left (Nat.le_of_lt h)
    have h2 : min (i + 1) (total % P) = i + 1 := Nat.min_eq_left h
    simp [h1, h2, if_pos h]
    ring
  · have h1 : min i (total % P) = total % P := Nat.min_eq_right h
    have h2 : min (i + 1) (total % P) = total % P :=
      Nat.min_eq_right (Nat.le_succ_of_le h)
    simp [h1, h2, if_neg (Nat.not_lt.mpr h)]
    ring

lemma segStart_last (total P : Nat) (hP : 1 ≤ P) :
    segStart total P P = total := by
  unfold segStart
  have hmod : total % P < P := Nat.mod_lt _ hP
  have h1 : min P (total % P) = total % P :=
    Nat.min_eq_right (Nat.le_of_lt hmod)
  rw [h1]
  have h2 := Nat.div_add_mod total P
  have h3 : P * (total / P) = total / P * P := Nat.mul_comm _ _
  omega

lemma segStart_mono (total P i : Nat) :
    segStart total P i ≤ segStart total P (i + 1) := by
  rw [segStart_succ]; omega

/-- The segment ranges, concatenated in child order, enumerate exactly the
offsets `[0, segStart total P k)`. -/
lemma seg_flat_upto (total P k : Nat) :
    ((List.range k).flatMap fun i =>
      List.range' (segStart total P i) (segLen total P i)) =
    List.range' 0 (segStart total P k) := by
  induction k with
  | zero => simp [segStart_zero]
  | succ k ih =>
      rw [List.range_succ, List.flatMap_append, ih]
      simp only [List.flatMap_cons, List.flatMap_nil, List.append_nil]
      have h := List.range'_append 0 (segStart total P k) (segLen total P k) 1
      simp only [Nat.one_mul, Nat.zero_add] at h
      rw [h, segStart_succ, Nat.add_comm]

/-- Summing the per-segment counts over the first `k` children gives the
single-pass count of the prefix covered so far. -/
lemma segCount_upto (buf : List Nat) (c P k : Nat) :
    ((List.range k).map fun i =>
      countSeg buf c (segStart buf.length P i) (segLen buf.length P i)).sum =
    countChar (buf.take (segStart buf.length P k)) c := by
  induction k with
  | zero => simp [segStart_zero, countChar]
  | succ k ih =>
      rw [List.range_succ, List.map_append, List.sum_append]
      simp only [List.map_cons, List.map_nil, List.sum_cons, List.sum_nil,
        Nat.add_zero]
      rw [ih, segStart_succ,
        List.take_add buf (segStart buf.length P k) (segLen buf.length P k),
        countChar_append]
      rfl

lemma segStart_le (total P : Nat) {i j : Nat} (h : i ≤ j) :
    segStart total P i ≤ segStart total P j := by
  induction j with
  | zero =>
      have h0 : i = 0 := Nat.le_zero.mp h
      rw [h0]
  | succ j ih =>
      rcases Nat.lt_or_ge i (j + 1) with hij | hij
      · exact Nat.le_trans (ih (Nat.lt_succ_iff.mp hij))
          (segStart_mono total P j)
      · have heq : i = j + 1 := Nat.le_antisymm h hij
        rw [heq]

end ThirdC

namespace ThirdC

/-! ## Result collection (`third.c:215-263`)

For each child `i` in order `0..P-1`, the parent `select`s on the pipe with
a 5-second timeout.  On timeout (`select` returns 0, so `FD_ISSET` is
false) it prints `Timeout waiting for data on pipe i` to stderr and moves
on to the next pipe.  If the pipe is readable, it loops `read` until 8
bytes of `child_count` have arrived or `read` returns 0 (EOF), retrying
`EINTR`; an unrecoverable `read`/`select` error returns `EXIT_FAILURE`.
`child_count` is initialised to 0, so on premature EOF its value is the
little-endian decode of the bytes received so far, zero-padded — and it is
added to `total_count` unconditionally.  After the loop the parent reaps
the children, writes the result and returns `EXIT_SUCCESS`. -/

/-- Little-endian value of a byte list (least significant byte first). -/
def leDecodeNat : List Nat → Nat
  | [] => 0
  | b :: rest => b + 256 * leDecodeNat rest

/-- Value of the 8-byte `long long child_count` buffer after the read loop:
the first `min 8 (length bytes)` bytes arrived, the rest remain 0 (the
variable is initialised to 0), interpreted as a signed 64-bit integer. -/
def leDecode8 (bytes : List Nat) : Int :=
  let n := leDecodeNat (bytes.take 8)
  if n < 2 ^ 63 then (n : Int) else (n : Int) - 2 ^ 64

/-- What the parent observes on one child's pipe (`third.c:223-261`):
`timeout` = `select` reports no data within 5s; `ready bytes` = the pipe is
readable and `bytes` are all the bytes delivered before EOF;
`readError` = an unrecoverable `select`/`read` failure (not `EINTR`). -/
inductive ChanObs
  | timeout
  | ready (bytes : List Nat)
  | readError
deriving DecidableEq

/-- Parent-side collection state: running `total_count` and the indices for
which `Timeout waiting for data on pipe i` was printed to stderr. -/
structure CollectState where
  total : Int
  timeoutsReported : List Nat
deriving DecidableEq

/-- One iteration of the collection loop (`third.c:217-263`) for pipe `i`:
timeout reports the index and continues, a readable pipe adds the decoded
(possibly zero-padded) count, an unrecoverable error aborts with
`EXIT_FAILURE`. -/
def collectStep (i : Nat) (obs : ChanObs) (st : CollectState) :
    Except Unit CollectState :=
  match obs with
  | ChanObs.timeout =>
      Except.ok { st with timeoutsReported := st.timeoutsReported ++ [i] }
  | ChanObs.ready bytes =>
      Except.ok { st with total := st.total + leDecode8 bytes }
  | ChanObs.readError => Except.error ()

/-- The collection loop from pipe index `i` onward. -/
def collectFrom (i : Nat) (st : CollectState) :
    List ChanObs → Except Unit CollectState
  | [] => Except.ok st
  | o :: rest =>
      match collectStep i o st with
      | Except.ok st' => collectFrom (i + 1) st' rest
      | Except.error e => Except.error e

/-- The whole collection loop (`third.c:216-263`): starts with
`total_count = 0` and no timeout reports, visits pipes `0..P-1` in order. -/
def collect (obs : List ChanObs) : Except Unit CollectState :=
  collectFrom 0 ⟨0, []⟩ obs

/-- Process exit code as a function of collection (`third.c:236-299`): the
error path returns `EXIT_FAILURE`; otherwise the parent proceeds to reap,
write and return `EXIT_SUCCESS` (output-write failures aside). -/
def collectExitCode (obs : List ChanObs) : Nat :=
  match collect obs with
  | Except.ok _ => 0
  | Except.error _ => 1

/-- Indices (counting from `i`) of the channels that time out. -/
def timeoutIdxFrom (i : Nat) : List ChanObs → List Nat
  | [] => []
  | ChanObs.timeout :: rest => i :: timeoutIdxFrom (i + 1) rest
  | _ :: rest => timeoutIdxFrom (i + 1) rest

/-- Sum of the decoded values of the channels that deliver data. -/
def readySum : List ChanObs → Int
  | [] => 0
  | ChanObs.ready bytes :: rest => leDecode8 bytes + readySum rest
  | _ :: rest => readySum rest

lemma collectFrom_char (obs : List ChanObs) :
    ∀ i st, ChanObs.readError ∉ obs →
    collectFrom i st obs =
      Except.ok ⟨st.total + readySum obs,
        st.timeoutsReported ++ timeoutIdxFrom i obs⟩ := by
  induction obs with
  | nil => intro i st _; simp [collectFrom, readySum, timeoutIdxFrom]
  | cons o rest ih =>
      intro i st hmem
      have hrest : ChanObs.readError ∉ rest := fun h => hmem (List.mem_cons_of_mem _ h)
      have ho : o ≠ ChanObs.readError := fun h => hmem (h ▸ List.mem_cons_self _ _)
      cases o with
      | timeout =>
          simp only [collectFrom, collectStep, readySum, timeoutIdxFrom]
          rw [ih (i + 1) _ hrest]
          simp
      | ready bytes =>
          simp only [collectFrom, collectStep, readySum, timeoutIdxFrom]
          rw [ih (i + 1) _ hrest]
          simp [Int.add_assoc]
      | readError => exact absurd rfl ho

/-- Collection succeeds with the ready-channel sum and the in-order timeout
reports whenever no unrecoverable read error occurs. -/
lemma collect_char (obs : List ChanObs) (h : ChanObs.readError ∉ obs) :
    collect obs = Except.ok ⟨readySum obs, timeoutIdxFrom 0 obs⟩ := by
  unfold collect
  rw [collectFrom_char obs 0 ⟨0, []⟩ h]
  simp

lemma readySum_append (l₁ l₂ : List ChanObs) :
    readySum (l₁ ++ l₂) = readySum l₁ + readySum l₂ := by
  induction l₁ with
  | nil => simp [readySum]
  | cons o rest ih =>
      cases o with
      | timeout => simp only [readySum, List.cons_append, List.append_eq, ih]
      | ready bytes =>
          simp only [readySum, List.cons_append, List.append_eq, ih]
          ring
      | readError =>
          simp only [readySum, List.cons_append, List.append_eq, ih]

/-! ## Channel transfer loops (`third.c:199-204` and `243-257`) -/

/-- Parent read loop (`third.c:243-257`): `read_bytes` starts at `acc`;
each `read` call returns the next element of `rets` (bytes delivered,
`0` = EOF); the loop keeps calling `read` while fewer than 8 bytes have
accumulated, and stops on EOF. -/
def readLoopAcc : List Nat → Nat → Nat
  | [], acc => acc
  | n :: rest, acc =>
      if acc < 8 then (if n = 0 then acc else readLoopAcc rest (acc + n))
      else acc

/-- Child-side send (`third.c:199-204`): exactly one `write` syscall of the
8-byte count; `ret` is the number of bytes that call transfers.  Result:
(number of `write` calls made, child exit code) — any return other than 8
makes the child `exit(EXIT_FAILURE)` with no retry. -/
def childWrite (ret : Nat) : Nat × Nat :=
  (1, if ret = 8 then 0 else 1)

lemma readLoopAcc_ge (rets : List Nat) :
    ∀ acc, (∀ n ∈ rets, 0 < n) → 8 ≤ acc + rets.sum →
    8 ≤ readLoopAcc rets acc := by
  induction rets with
  | nil =>
      intro acc _ h
      simpa [readLoopAcc] using h
  | cons n rest ih =>
      intro acc hpos h
      unfold readLoopAcc
      by_cases hacc : acc < 8
      · have hn : 0 < n := hpos n (List.mem_cons_self _ _)
        rw [if_pos hacc, if_neg (Nat.pos_iff_ne_zero.mp hn)]
        refine ih (acc + n) (fun m hm => hpos m (List.mem_cons_of_mem _ hm)) ?_
        simp only [List.sum_cons] at h
        omega
      · rw [if_neg hacc]
        omega

/-- C3 counterexample: with `P = 2`, channel 0 timing out and channel 1
delivering the count 4, the collection loop reports index 0 but still
produces an aggregate (4) from the remaining channel and the process takes
the `EXIT_SUCCESS` path — contradicting the claim that the whole job fails
and the process exits non-zero. -/
theorem timeout_not_fatal_counterexample :
    collect [ChanObs.timeout, ChanObs.ready [4, 0, 0, 0, 0, 0, 0, 0]] =
      Except.ok ⟨4, [0]⟩ ∧
    collectExitCode [ChanObs.timeout, ChanObs.ready [4, 0, 0, 0, 0, 0, 0, 0]]
      = 0 := by
  exact ⟨rfl, rfl⟩

/-- C3 amended: if a channel delivers no data within the 5-second bound,
the Coordinator prints the specific channel index that timed out to the
error stream, but the job does not fail: the remaining channels are still
collected into an aggregate (the timed-out channel contributing nothing)
and, absent unrecoverable read errors, the process exits zero. -/
theorem timeout_reported_but_collection_continues (obs : List ChanObs)
    (h : ChanObs.readError ∉ obs) :
    collect obs = Except.ok ⟨readySum obs, timeoutIdxFrom 0 obs⟩ ∧
    collectExitCode obs = 0 := by
  refine ⟨collect_char obs h, ?_⟩
  unfold collectExitCode
  rw [collect_char obs h]

/-- Witness for amended C3: a single timing-out channel is reported as
index 0 and the process still exits 0. -/
theorem timeout_reported_but_collection_continues_witness :
    collect [ChanObs.timeout] = Except.ok ⟨0, [0]⟩ ∧
    collectExitCode [ChanObs.timeout] = 0 :=
  timeout_reported_but_collection_continues [ChanObs.timeout] (by decide)

/-- C4 counterexample: a channel closed after delivering a single byte `5`
(EOF before the full 8-byte count) does not fail the job: the partially
received, zero-padded value 5 is added into the total and the process
exits 0 — contradicting "fails the whole job" and "an incompletely
received segment count is never added into the total". -/
theorem partial_count_aggregated_counterexample :
    collect [ChanObs.ready [5]] = Except.ok ⟨5, []⟩ ∧
    collectExitCode [ChanObs.ready [5]] = 0 := by
  exact ⟨rfl, rfl⟩

/-- C4 amended: if a channel reaches EOF before the full 8-byte count has
arrived, the Coordinator does not fail: the bytes received so far,
zero-padded to 8 bytes and decoded little-endian, are added into the
total, the remaining channels are still collected, and the process exits
zero (absent unrecoverable read errors). -/
theorem partial_count_added_to_total (pre post : List ChanObs)
    (bytes : List Nat) (h₁ : ChanObs.readError ∉ pre)
    (h₂ : ChanObs.readError ∉ post) (_hshort : bytes.length < 8) :
    (∃ st : CollectState,
      collect (pre ++ ChanObs.ready bytes :: post) = Except.ok st ∧
      st.total = readySum pre + leDecode8 bytes + readySum post) ∧
    collectExitCode (pre ++ ChanObs.ready bytes :: post) = 0 := by
  have hmem : ChanObs.readError ∉ pre ++ ChanObs.ready bytes :: post := by
    intro hmem
    rcases List.mem_append.mp hmem with hc | hc
    · exact h₁ hc
    · rcases List.mem_cons.mp hc with hc | hc
      · exact absurd hc.symm (by simp)
      · exact h₂ hc
  refine ⟨⟨_, collect_char _ hmem, ?_⟩, ?_⟩
  · rw [readySum_append]
    simp [readySum]
    ring
  · unfold collectExitCode
    rw [collect_char _ hmem]

/-- Witness for amended C4: one full channel (count 2), then a channel
closed after one byte `5`, then a timing-out channel: the total is
`2 + 5 + 0 = 7` and the process exits 0. -/
theorem partial_count_added_to_total_witness :
    (∃ st : CollectState,
      collect ([ChanObs.ready [2, 0, 0, 0, 0, 0, 0, 0]] ++
        ChanObs.ready [5] :: [ChanObs.timeout]) = Except.ok st ∧
      st.total = readySum [ChanObs.ready [2, 0, 0, 0, 0, 0, 0, 0]] +
        leDecode8 [5] + readySum [ChanObs.timeout]) ∧
    collectExitCode ([ChanObs.ready [2, 0, 0, 0, 0, 0, 0, 0]] ++
      ChanObs.ready [5] :: [ChanObs.timeout]) = 0 :=
  partial_count_added_to_total [ChanObs.ready [2, 0, 0, 0, 0, 0, 0, 0]]
    [ChanObs.timeout] [5] (by decide) (by decide) (by decide)

/-- C5 counterexample: on a short write transferring 4 of the 8 bytes, the
child makes exactly one `write` call and exits `EXIT_FAILURE` without
retrying — even though the same short-transfer pattern completes on the
retrying read side (`readLoopAcc [4, 4] 0 = 8`).  This contradicts the
claim that the worker's write side retries short writes until the full
payload has been transferred. -/
theorem short_write_not_retried_counterexample :
    childWrite 4 = (1, 1) ∧ readLoopAcc [4, 4] 0 = 8 := by
  exact ⟨rfl, rfl⟩

/-- C5 amended: only the Coordinator's read side retries partial
transfers — short reads are retried until the 8-byte payload is complete
(or EOF); the worker's write side performs exactly one `write` call of the
8-byte count and treats any short write as fatal, exiting non-zero with no
retry. -/
theorem read_side_retries_write_side_does_not (rets : List Nat)
    (hpos : ∀ n ∈ rets, 0 < n) (hsum : 8 ≤ rets.sum) :
    8 ≤ readLoopAcc rets 0 ∧
    (∀ ret : Nat, (childWrite ret).1 = 1 ∧
      ((childWrite ret).2 = 0 ↔ ret = 8)) := by
  refine ⟨readLoopAcc_ge rets 0 hpos (by omega), ?_⟩
  intro ret
  refine ⟨rfl, ?_⟩
  unfold childWrite
  by_cases h : ret = 8 <;> simp [h]

/-- Witness for amended C5: two short reads of 5 and 3 bytes complete the
8-byte payload on the read side. -/
theorem read_side_retries_write_side_does_not_witness :
    8 ≤ readLoopAcc [5, 3] 0 ∧
    (∀ ret : Nat, (childWrite ret).1 = 1 ∧
      ((childWrite ret).2 = 0 ↔ ret = 8)) :=
  read_side_retries_write_side_does_not [5, 3] (by decide) (by decide)

/-- The aggregate of the per-segment counts equals the single-pass count. -/
lemma segCountSum_eq_countChar (buf : List Nat) (c P : Nat) (hP : 1 ≤ P) :
    segCountSum buf c P = countChar buf c := by
  unfold segCountSum
  rw [segCount_upto buf c P P, segStart_last buf.length P hP,
    List.take_length]

/-- C1: For every buffer, target byte and worker count `P ≥ 1`, the sum of
the per-segment counts (each segment scanned sequentially as a child of
`third.c` does) equals the single-pass count of `count_char.c`; in
particular `P = 1` yields exactly the single-pass result. -/
theorem segment_sum_eq_single_pass (buf : List Nat) (c P : Nat)
    (hP : 1 ≤ P) :
    segCountSum buf c P = countChar buf c ∧
    segCountSum buf c 1 = countChar buf c :=
  ⟨segCountSum_eq_countChar buf c P hP,
   segCountSum_eq_countChar buf c 1 (Nat.le_refl 1)⟩

/-- Witness for C1: the spec's end-to-end example — buffer `"aabcaabc"`
(bytes 97 97 98 99 97 97 98 99), target `'a'` = 97, `P = 2` — where both
segment counts are 2 and the aggregate 4 equals the single-pass count. -/
theorem segment_sum_eq_single_pass_witness :
    segCountSum [97, 97, 98, 99, 97, 97, 98, 99] 97 2 =
      countChar [97, 97, 98, 99, 97, 97, 98, 99] 97 ∧
    segCountSum [97, 97, 98, 99, 97, 97, 98, 99] 97 2 = 4 :=
  ⟨(segment_sum_eq_single_pass [97, 97, 98, 99, 97, 97, 98, 99] 97 2
      (by decide)).1, by decide⟩

/-- C2: For every `total_length ≥ 0` and every `P ≥ 1`, the `P` segments of
`third.c` (start `i*base + min i remainder`, length `base + 1` for
`i < remainder` else `base`) are ordered and pairwise disjoint, cover
exactly `[0, total_length)` (their ranges concatenated in order enumerate
exactly `0..total_length-1`), any two lengths differ by at most 1, and
exactly the first `remainder` segments have the extra element. -/
theorem segment_partition_correct (total P : Nat) (hP : 1 ≤ P) :
    ((List.range P).flatMap fun i =>
        List.range' (segStart total P i) (segLen total P i)) =
      List.range total
  ∧ (∀ i j, i < j → j < P →
        segStart total P i + segLen total P i ≤ segStart total P j)
  ∧ (∀ i j, i < P → j < P → segLen total P i ≤ segLen total P j + 1)
  ∧ (∀ i, i < P → (segLen total P i = total / P + 1 ↔ i < total % P)) := by
  refine ⟨?_, ?_, ?_, ?_⟩
  · rw [seg_flat_upto total P P, segStart_last total P hP,
      List.range_eq_range']
  · intro i j hij _hj
    calc segStart total P i + segLen total P i
        = segStart total P (i + 1) := (segStart_succ total P i).symm
      _ ≤ segStart total P j := segStart_le total P hij
  · intro i j _hi _hj
    unfold segLen
    split <;> split <;> omega
  · intro i _hi
    unfold segLen
    split <;> simp_all

/-- Witness for C2 at `total_length = 8`, `P = 3`: segments `[0,3)`,
`[3,6)`, `[6,8)` — ordered, disjoint, covering `[0,8)` exactly. -/
theorem segment_partition_correct_witness :
    ((List.range 3).flatMap fun i =>
        List.range' (segStart 8 3 i) (segLen 8 3 i)) = List.range 8 :=
  (segment_partition_correct 8 3 (by decide)).1

/-! ## Debounced SIGINT handler (`third.c:29-39`)

`sigint_handler` keeps a `static time_t last_print = 0`; on each delivery
it reads `now = time(NULL)` and returns without printing when
`now - last_print < 1`; otherwise it sets `last_print = now` and writes one
status line.  `time_t` values are modelled as `Int` (whole seconds, the
granularity of `time`). -/

/-- One invocation of `sigint_handler` (`third.c:29-39`): given the stored
`last_print` and the current `time(NULL)`, returns the new `last_print`
and whether a line was printed. -/
def sigintStep (last now : Int) : Int × Bool :=
  if now - last < 1 then (last, false) else (now, true)

/-- The times at which a line is printed when the handler fires at the
given trigger times, threading the `static` `last_print` (initially 0 at
program start). -/
def sigintRun (last : Int) : List Int → List Int
  | [] => []
  | t :: ts =>
      if (sigintStep last t).2 then t :: sigintRun t ts
      else sigintRun last ts

lemma sigintStep_true_iff (last now : Int) :
    (sigintStep last now).2 = true ↔ 1 ≤ now - last := by
  unfold sigintStep
  split <;> simp <;> omega

lemma sigintRun_replicate_self (t : Int) (n : Nat) :
    sigintRun t (List.replicate n t) = [] := by
  induction n with
  | zero => rfl
  | succ n ih =>
      have hstep : (sigintStep t t).2 = false := by
        unfold sigintStep
        rw [if_pos (by omega)]
      simp only [List.replicate_succ, sigintRun, hstep]
      exact ih

lemma sigintRun_chain (ts : List Int) :
    ∀ last, List.Chain (fun a b => a + 1 ≤ b) last ts →
    sigintRun last ts = ts := by
  induction ts with
  | nil => intro last _; rfl
  | cons t rest ih =>
      intro last hchain
      rcases List.chain_cons.mp hchain with ⟨hgap, hrest⟩
      have hstep : (sigintStep last t).2 = true :=
        (sigintStep_true_iff last t).mpr (by omega)
      simp only [sigintRun, hstep, if_pos]
      rw [ih t hrest]

/-- C6: a trigger prints iff at least 1 second (at `time()`'s whole-second
granularity) separates it from the last successful print; `n ≥ 1` repeated
triggers within the same second produce exactly one line (the extras are
dropped, not queued); triggers each spaced ≥ 1s after the previous print
each produce one line. -/
theorem sigint_debounce (last t : Int) (n : Nat) (ts : List Int)
    (hn : 1 ≤ n) (hgap : 1 ≤ t - last)
    (hchain : List.Chain (fun a b => a + 1 ≤ b) last ts) :
    (∀ l now : Int, (sigintStep l now).2 = true ↔ 1 ≤ now - l) ∧
    sigintRun last (List.replicate n t) = [t] ∧
    sigintRun last ts = ts := by
  refine ⟨sigintStep_true_iff, ?_, sigintRun_chain ts last hchain⟩
  obtain ⟨m, rfl⟩ : ∃ m, n = m + 1 := ⟨n - 1, by omega⟩
  have hstep : (sigintStep last t).2 = true :=
    (sigintStep_true_iff last t).mpr hgap
  simp only [List.replicate_succ, sigintRun, hstep, if_pos]
  rw [sigintRun_replicate_self]

/-- Witness for C6: three triggers at second 10 (after a print at second 0)
print once; triggers at 10, 11, 13 each print. -/
theorem sigint_debounce_witness :
    sigintRun 0 (List.replicate 3 10) = [10] ∧
    sigintRun 0 [10, 11, 13] = [10, 11, 13] := by
  have h := sigint_debounce 0 10 3 [10, 11, 13] (by decide) (by decide)
    (by constructor
        · omega
        · constructor
          · omega
          · constructor
            · omega
            · exact List.Chain.nil)
  exact ⟨h.2.1, h.2.2⟩

/-! ## ActiveCounter (`third.c:26`, `158`, `42-48`)

`active_children` is a `volatile sig_atomic_t`, set to `P` at line 158
before the fork loop; `sigchld_handler` (lines 42-48) runs on each
`SIGCHLD` delivery and decrements it once per child reaped by its
`waitpid(-1, NULL, WNOHANG)` loop.  Nothing else writes it. -/

/-- The value of `active_children` after `k` child-termination events,
each reaped exactly once by `sigchld_handler`'s `waitpid` loop: starts at
`P` (`third.c:158`), one decrement per event (`third.c:45`). -/
def activeAfter (P : Nat) : Nat → Int
  | 0 => (P : Int)
  | k + 1 => activeAfter P k - 1

/-- One `sigchld_handler` invocation (`third.c:42-48`) whose `waitpid`
loop reaps `reaped` children: decrements the counter once per child. -/
def sigchldHandler (c : Int) (reaped : Nat) : Int := c - reaped

/-- `active_children` after a sequence of handler invocations, each
reaping a batch of terminated children, starting from `P`. -/
def activeTrace (P : Nat) (batches : List Nat) : Int :=
  batches.foldl sigchldHandler (P : Int)

lemma activeAfter_eq (P k : Nat) : activeAfter P k = (P : Int) - k := by
  induction k with
  | zero => simp [activeAfter]
  | succ k ih => simp only [activeAfter, ih]; push_cast; ring

lemma activeTrace_eq (P : Nat) (batches : List Nat) :
    activeTrace P batches = (P : Int) - batches.sum := by
  unfold activeTrace
  suffices h : ∀ (c : Int), batches.foldl sigchldHandler c = c - batches.sum by
    simpa using h (P : Int)
  induction batches with
  | nil => intro c; simp [sigchldHandler]
  | cons b rest ih =>
      intro c
      simp only [List.foldl_cons, ih, sigchldHandler, List.sum_cons]
      push_cast
      ring

/-- C7: `active_children` is initialised to `P` before any fork, each
worker-termination event moves it from `n` to `n - 1` exactly once, it is
never incremented, hence it is antitone in the number of termination
events, equals `P - k` after `k ≤ P` events (reaching 0 after all `P`),
and batching several reaps into one `sigchld_handler` invocation still
yields exactly one decrement per terminated worker. -/
theorem active_counter_decreases (P : Nat) :
    activeAfter P 0 = (P : Int) ∧
    (∀ k, activeAfter P (k + 1) = activeAfter P k - 1) ∧
    (∀ k m, k ≤ m → activeAfter P m ≤ activeAfter P k) ∧
    (∀ k, k ≤ P → activeAfter P k = (P : Int) - k ∧ 0 ≤ activeAfter P k) ∧
    (∀ batches : List Nat, activeTrace P batches = (P : Int) - batches.sum) := by
  refine ⟨rfl, fun k => rfl, ?_, ?_, activeTrace_eq P⟩
  · intro k m hkm
    rw [activeAfter_eq, activeAfter_eq]
    omega
  · intro k hk
    rw [activeAfter_eq]
    constructor
    · rfl
    · omega

/-- Witness for C7 at `P = 3`: after all 3 termination events the counter
is 0, and it is no larger than after 1 event. -/
theorem active_counter_decreases_witness :
    activeAfter 3 3 = (3 : Int) - (3 : Nat) ∧
    activeAfter 3 3 ≤ activeAfter 3 1 := by
  have h := active_counter_decreases 3
  exact ⟨(h.2.2.2.1 3 (by decide)).1, h.2.2.1 1 3 (by decide)⟩

/-! ## Worker count from the environment (`third.c:111-122`)

`int P = 4; char *env_p = getenv("P"); if (env_p != NULL) { P = atoi(env_p);
if (P <= 0) return EXIT_FAILURE; }` — the check happens before the signal
setup, pipe creation and the fork loop. -/

/-- C's `isspace` on the default locale: the white-space characters
`atoi` skips. -/
def isSpaceC (c : Char) : Bool :=
  c = ' ' || c = '\t' || c = '\n' || c = '\x0b' || c = '\x0c' || c = '\r'

/-- Digit-accumulation phase of `atoi`: consume leading decimal digits,
stopping at the first non-digit. -/
def atoiDigits : List Char → Nat → Nat
  | [], acc => acc
  | c :: rest, acc =>
      if c.isDigit then atoiDigits rest (acc * 10 + (c.toNat - 48)) else acc

/-- Sign phase of `atoi`: an optional single `+` or `-` before the
digits. -/
def atoiSign : List Char → Int
  | [] => 0
  | c :: rest =>
      if c = '-' then -(atoiDigits rest 0 : Int)
      else if c = '+' then (atoiDigits rest 0 : Int)
      else (atoiDigits (c :: rest) 0 : Int)

/-- C's `atoi`: skip white space, read an optional sign, then the longest
digit prefix (0 if there is none, ignoring anything after the digits).
Overflow behaviour is undefined in C; the model is exact. -/
def atoi (s : String) : Int :=
  atoiSign (s.toList.dropWhile fun c => isSpaceC c)

/-- Worker-count determination (`third.c:111-122`): `P` defaults to 4 when
the environment variable is unset; otherwise `P = atoi(value)` and the job
fails (`EXIT_FAILURE`, before any fork) iff that value is `≤ 0`. -/
def readP (env : Option String) : Except Unit Nat :=
  match env with
  | none => Except.ok 4
  | some s => if atoi s ≤ 0 then Except.error () else Except.ok (atoi s).toNat

/-- The spec's side condition on the environment value, stated from the
spec's words: the value "is a positive integer", i.e. a nonempty string of
decimal digits denoting a positive number. -/
def specIsPositiveInteger (s : String) : Bool :=
  !s.toList.isEmpty && s.toList.all Char.isDigit &&
    decide (0 < atoiDigits s.toList 0)

/-- C8 counterexample: the environment value `"3abc"` is not a positive
integer, yet the job does not fail: `atoi("3abc") = 3 > 0`, so `P = 3` is
accepted and workers are spawned. -/
theorem nonnumeric_P_accepted_counterexample :
    specIsPositiveInteger "3abc" = false ∧
    readP (some "3abc") = Except.ok 3 := by
  exact ⟨rfl, rfl⟩

/-- C8 amended: the worker count defaults to 4 when `P` is absent; with
`P` present, the job fails before any worker is spawned iff
`atoi(value) ≤ 0` (so any value whose leading digit prefix after optional
white space and sign is positive — e.g. `"3abc"` — is accepted), and
whenever `atoi(value) > 0` that value is used as `P`. -/
theorem readP_characterization :
    readP none = Except.ok 4 ∧
    (∀ s : String, readP (some s) = Except.error () ↔ atoi s ≤ 0) ∧
    (∀ s : String, 0 < atoi s → readP (some s) = Except.ok (atoi s).toNat) := by
  refine ⟨rfl, ?_, ?_⟩
  · intro s
    unfold readP
    by_cases h : atoi s ≤ 0 <;> simp [h]
  · intro s h
    simp only [readP]
    rw [if_neg (by omega)]

/-- Witness for amended C8: `"7"` parses to `P = 7`. -/
theorem readP_characterization_witness :
    readP (some "7") = Except.ok ((atoi "7").toNat) :=
  readP_characterization.2.2 "7" (by decide)

/-! ## Setup sequence of `main` (`third.c:54-190`)

After `open`/`fstat`, the empty-file check (lines 84-88) returns
`EXIT_FAILURE` before the `P` lookup (111-122), the signal setup, the pipe
array allocation and the fork loop; only when every check passes does the
fork loop create the `P` (channel, segment) pairs. -/

inductive MainError
  | emptyInput
  | invalidP
deriving DecidableEq

/-- The setup phase of `main` as a function of the input file's size and
the `P` environment variable: an error exits non-zero before any child is
forked or pipe created; success yields `P` and the per-child segments the
fork loop distributes. -/
def runSetup (fileSize : Nat) (env : Option String) :
    Except MainError (Nat × List (Nat × Nat)) :=
  if fileSize = 0 then Except.error MainError.emptyInput
  else
    match readP env with
    | Except.error _ => Except.error MainError.invalidP
    | Except.ok P =>
        Except.ok (P, (List.range P).map fun i =>
          (segStart fileSize P i, segLen fileSize P i))

/-- Exit code of the setup phase: any error path returns `EXIT_FAILURE`. -/
def setupExitCode (fileSize : Nat) (env : Option String) : Nat :=
  match runSetup fileSize env with
  | Except.ok _ => 0
  | Except.error _ => 1

/-- C9: a zero-length input fails with the empty-input diagnostic before
any worker is spawned or channel created — the setup aborts (for every
environment) with a non-zero exit code, producing no spawn plan. -/
theorem empty_input_fails_before_spawn (env : Option String) :
    runSetup 0 env = Except.error MainError.emptyInput ∧
    setupExitCode 0 env = 1 := by
  have h : runSetup 0 env = Except.error MainError.emptyInput := by
    unfold runSetup
    rw [if_pos rfl]
  refine ⟨h, ?_⟩
  unfold setupExitCode
  rw [h]

/-! ## Count bounds and 64-bit representability

The child's `long long count` (`third.c:191`) and the parent's
`long long total_count` (`third.c:216`) are 64-bit signed; the counts are
bounded by the segment and buffer lengths, which fit in `off_t`
(`file_stat.st_size`, at most `2^63 - 1`). -/

/-- The 8 bytes the child's `write(pipes[i][1], &count, sizeof(count))`
(`third.c:199`) puts on the pipe for a nonnegative count value: the
little-endian layout of `long long` on the program's target. -/
def leEncode8 (n : Nat) : List Nat :=
  [n % 256, n / 256 % 256, n / 256 ^ 2 % 256, n / 256 ^ 3 % 256,
   n / 256 ^ 4 % 256, n / 256 ^ 5 % 256, n / 256 ^ 6 % 256,
   n / 256 ^ 7 % 256]

lemma leDecodeNat_leEncode8 (n : Nat) :
    leDecodeNat (leEncode8 n) = n % 2 ^ 64 := by
  simp only [leEncode8, leDecodeNat]
  omega

lemma leDecode8_leEncode8 (n : Nat) (h : n < 2 ^ 63) :
    leDecode8 (leEncode8 n) = (n : Int) := by
  unfold leDecode8
  have hlen : (leEncode8 n).take 8 = leEncode8 n := by
    simp [leEncode8]
  rw [hlen, leDecodeNat_leEncode8]
  have hmod : n % 2 ^ 64 = n := Nat.mod_eq_of_lt (by omega)
  rw [hmod, if_pos h]

/-- C10: every per-segment count is at most its segment's length, the
aggregate is at most the buffer length, so for any buffer whose size is
representable in `off_t` (`< 2^63`) the aggregate fits in the signed
64-bit `long long`, and the 8-byte value the child transmits decodes on
the parent side to exactly the aggregate — no overflow. -/
theorem counts_bounded_no_overflow (buf : List Nat) (c s l P : Nat)
    (hP : 1 ≤ P) (hrepr : buf.length < 2 ^ 63) :
    countSeg buf c s l ≤ l ∧
    segCountSum buf c P ≤ buf.length ∧
    segCountSum buf c P < 2 ^ 63 ∧
    leDecode8 (leEncode8 (segCountSum buf c P)) =
      (segCountSum buf c P : Int) := by
  have hseg : countSeg buf c s l ≤ l := by
    unfold countSeg
    calc countChar ((buf.drop s).take l) c
        ≤ ((buf.drop s).take l).length := countChar_le_length _ _
      _ ≤ l := by rw [List.length_take]; omega
  have hsum : segCountSum buf c P ≤ buf.length := by
    rw [segCountSum_eq_countChar buf c P hP]
    exact countChar_le_length buf c
  have hlt : segCountSum buf c P < 2 ^ 63 := Nat.lt_of_le_of_lt hsum hrepr
  exact ⟨hseg, hsum, hlt, leDecode8_leEncode8 _ hlt⟩

/-- Witness for C10: buffer `[97, 98, 97]`, target 97, segment `[0, 2)`,
`P = 2`. -/
theorem counts_bounded_no_overflow_witness :
    countSeg [97, 98, 97] 97 0 2 ≤ 2 ∧
    segCountSum [97, 98, 97] 97 2 ≤ [97, 98, 97].length ∧
    segCountSum [97, 98, 97] 97 2 < 2 ^ 63 ∧
    leDecode8 (leEncode8 (segCountSum [97, 98, 97] 97 2)) =
      (segCountSum [97, 98, 97] 97 2 : Int) :=
  counts_bounded_no_overflow [97, 98, 97] 97 0 2 2 (by decide) (by decide)

end ThirdC
